import Mathlib

/-!
# go-message, `multipart.go`

A shallow embedding of `multipartReader` and `multipartBody`.

* Go's `error` values are `Option GoError`, `none` being `nil`.
* A run-time panic of an indexing expression is an explicit outcome.
* The framing writer, the part writers and the pipe write end live outside the
  file; they are an abstract state `σ` driven through a `WriterWorld`, and the
  operations performed on them are logged, with their results, as `Event`s.
-/

namespace messages

/-! ## Data model -/

/-- Go `error` values that are not `nil`. `EOF` is `io.EOF`, `ErrClosedPipe` is
`io.ErrClosedPipe`, any other error is identified by a code. -/
inductive GoError where
  | EOF
  | ErrClosedPipe
  | Other (code : Nat)
deriving DecidableEq, Repr

/-- An `*Entity` that is not nil: a header and a body. -/
structure Entity (H B : Type) where
  Header : H
  Body : B
deriving DecidableEq, Repr

/-- What a call yields: it returns a value, or the indexing expression
`m.parts[m.i]` panics with "index out of range [index] with length length". -/
inductive Outcome (α : Type) where
  | returned (v : α)
  | indexOutOfRange (index : Int) (length : Nat)
deriving DecidableEq, Repr

/-- The read end `m.r` of the pipe made by `io.Pipe()`, as far as `Close` acts
on it: `rerr` is the error stored by the first close of the read end. -/
structure PipeReader where
  rerr : Option GoError
deriving DecidableEq, Repr

/-- `io.Pipe()`: a pipe whose read end has not been closed. -/
def PipeReader.fresh : PipeReader := { rerr := none }

/-- `(*io.PipeReader).Close`: stores `io.ErrClosedPipe` unless an error has been
stored before. -/
def PipeReader.Close (r : PipeReader) : PipeReader :=
  match r.rerr with
  | none => { rerr := some GoError.ErrClosedPipe }
  | some e => { rerr := some e }

/-- The struct `multipartBody`; `r` and `w` are `none` for nil pointers. -/
structure multipartBody (H B W : Type) where
  header : H
  parts : List (Entity H B)
  r : Option PipeReader
  w : Option W
  i : Int
deriving DecidableEq, Repr

/-- A body as constructed: the parts, no pipe, no writer, cursor zero. -/
def multipartBody.fresh {H B W : Type} (header : H) (parts : List (Entity H B)) :
    multipartBody H B W :=
  { header := header, parts := parts, r := none, w := none, i := 0 }

/-! ## `multipartBody.NextPart`, `Read`, `Close` -/

/-- The method `(*multipartBody).NextPart`: the state after the call and what the
call yields. The guard is `m.i > len(m.parts)`; the indexing `m.parts[m.i]` panics
outside `0 ≤ m.i < len(m.parts)`, before `m.i++` runs. -/
def multipartBody.NextPart {H B W : Type} (m : multipartBody H B W) :
    multipartBody H B W × Outcome (Option (Entity H B) × Option GoError) :=
  if m.i > (m.parts.length : Int) then
    (m, Outcome.returned (none, some GoError.EOF))
  else if m.i < 0 then
    (m, Outcome.indexOutOfRange m.i m.parts.length)
  else
    match m.parts[m.i.toNat]? with
    | none => (m, Outcome.indexOutOfRange m.i m.parts.length)
    | some part => ({ m with i := m.i + 1 }, Outcome.returned (some part, none))

/-- The foreground part of `(*multipartBody).Read` before it returns
`m.r.Read(p)`: the state after the `if m.r == nil` block, and whether the
goroutine was started. `newWriter` builds the writer from the header. -/
def multipartBody.Read {H B W : Type} (newWriter : H → W) (m : multipartBody H B W) :
    multipartBody H B W × Bool :=
  match m.r with
  | none =>
    ({ m with r := some PipeReader.fresh, w := some (newWriter m.header),
              i := (m.parts.length : Int) }, true)
  | some _ => (m, false)

/-- The method `(*multipartBody).Close`: closes the read end when there is one,
and returns nil. -/
def multipartBody.Close {H B W : Type} (m : multipartBody H B W) :
    multipartBody H B W × Option GoError :=
  match m.r with
  | some r => ({ m with r := some r.Close }, none)
  | none => (m, none)

/-- The calls a consumer can make on a body. -/
inductive Call where
  | NextPart
  | Read
  | Close
deriving DecidableEq, Repr

/-- The state after one call. A call of `NextPart` that panics leaves the state
as it was: the panic is raised before any assignment. -/
def multipartBody.step {H B W : Type} (newWriter : H → W) (m : multipartBody H B W) :
    Call → multipartBody H B W
  | Call.NextPart => m.NextPart.1
  | Call.Read => (m.Read newWriter).1
  | Call.Close => m.Close.1

/-- The state after a finite sequence of calls, made in order. -/
def multipartBody.run {H B W : Type} (newWriter : H → W) (m : multipartBody H B W)
    (calls : List Call) : multipartBody H B W :=
  calls.foldl (multipartBody.step newWriter) m

/-- The outcomes of `k` successive calls of `NextPart`, first call first. -/
def multipartBody.nextParts {H B W : Type} :
    Nat → multipartBody H B W → List (Outcome (Option (Entity H B) × Option GoError))
  | 0, _ => []
  | k + 1, m => m.NextPart.2 :: multipartBody.nextParts k m.NextPart.1

/-! ## `multipartReader` -/

/-- A `*multipart.Part` that is not nil: its `Header` field, and the part as a
reader. -/
structure Part (H R : Type) where
  Header : H
  reader : R
deriving DecidableEq, Repr

/-- The method `(*multipartReader).NextPart`. `next` is `r.r.NextPart()`, acting
on the parser state `ρ`; `NewEntity` is the entity constructor. -/
def multipartReader.NextPart {ρ H R E : Type} (next : ρ → ρ × Except GoError (Part H R))
    (NewEntity : H → Part H R → E) (r : ρ) : ρ × (Option E × Option GoError) :=
  match next r with
  | (r1, Except.error err) => (r1, (none, some err))
  | (r1, Except.ok p) => (r1, (some (NewEntity p.Header p), none))

/-! ## Serialization: `writeTo` and the goroutine of `Read` -/

/-- The operations the goroutine calls, as functions of the state `σ` of the
framing writer `m.w`, its part writers and the pipe write end `w`. -/
structure WriterWorld (σ H B PW : Type) where
  /-- The call `m.w.CreatePart(p.Header)`. -/
  CreatePart : σ → H → σ × Except GoError PW
  /-- The call `p.WriteTo(pw)`. -/
  WriteTo : σ → Entity H B → PW → σ × Option GoError
  /-- The call `pw.Close()`. -/
  PartClose : σ → PW → σ × Option GoError
  /-- The call `m.w.Close()`. -/
  Close : σ → σ × Option GoError
  /-- The call `w.Close()` on the pipe write end. -/
  PipeClose : σ → σ
  /-- The call `w.CloseWithError(err)` on the pipe write end. -/
  PipeCloseWithError : σ → GoError → σ

/-- One operation performed by the goroutine, with what it returned. -/
inductive Event (H B PW : Type) where
  | CreatePart (h : H) (res : Except GoError PW)
  | WriteTo (p : Entity H B) (pw : PW) (err : Option GoError)
  | PartClose (pw : PW) (err : Option GoError)
  | Close (err : Option GoError)
  | PipeClose
  | PipeCloseWithError (err : GoError)

/-- The error an operation returned, `none` when it returned none. The return
values of the two pipe closes are not looked at by the code. -/
def Event.err {H B PW : Type} : Event H B PW → Option GoError
  | Event.CreatePart _ (Except.error e) => some e
  | Event.CreatePart _ (Except.ok _) => none
  | Event.WriteTo _ _ e => e
  | Event.PartClose _ e => e
  | Event.Close e => e
  | Event.PipeClose => none
  | Event.PipeCloseWithError _ => none

/-- Whether the event is that kind of close of the pipe write end. -/
def Event.isPipeClose {H B PW : Type} : Event H B PW → Bool
  | Event.PipeClose => true
  | _ => false

/-- Whether the event is the finalize `m.w.Close()`. -/
def Event.isFinalize {H B PW : Type} : Event H B PW → Bool
  | Event.Close _ => true
  | _ => false

/-- Whether the event is an operation on the pipe write end. -/
def Event.isPipeOp {H B PW : Type} : Event H B PW → Bool
  | Event.PipeClose => true
  | Event.PipeCloseWithError _ => true
  | _ => false

/-- Whether the event is one of the three operations of serializing a part. -/
def Event.isPartOp {H B PW : Type} : Event H B PW → Bool
  | Event.CreatePart _ _ => true
  | Event.WriteTo _ _ _ => true
  | Event.PartClose _ _ => true
  | _ => false

/-- The error a reader of the pipe gets once the data is drained, by `io.Pipe`:
the error of the first close of the write end, `io.EOF` for `Close()`. -/
def pipeReadError {H B PW : Type} : List (Event H B PW) → Option GoError
  | [] => none
  | Event.PipeClose :: _ => some GoError.EOF
  | Event.PipeCloseWithError e :: _ => some e
  | _ :: evs => pipeReadError evs

/-- The loop `for _, p := range m.parts` of `writeTo`: the state after it, the
operations performed, and the error returned. -/
def multipartBody.writeToLoop {σ H B PW : Type} (world : WriterWorld σ H B PW) :
    List (Entity H B) → σ → σ × List (Event H B PW) × Option GoError
  | [], s => (s, [], none)
  | p :: ps, s =>
    match world.CreatePart s p.Header with
    | (s1, Except.error err) => (s1, [Event.CreatePart p.Header (Except.error err)], some err)
    | (s1, Except.ok pw) =>
      match world.WriteTo s1 p pw with
      | (s2, some err) =>
        (s2, [Event.CreatePart p.Header (Except.ok pw), Event.WriteTo p pw (some err)], some err)
      | (s2, none) =>
        match world.PartClose s2 pw with
        | (s3, some err) =>
          (s3, [Event.CreatePart p.Header (Except.ok pw), Event.WriteTo p pw none,
                Event.PartClose pw (some err)], some err)
        | (s3, none) =>
          match multipartBody.writeToLoop world ps s3 with
          | (s4, evs, res) =>
            (s4, Event.CreatePart p.Header (Except.ok pw) :: Event.WriteTo p pw none ::
                 Event.PartClose pw none :: evs, res)

/-- The method `(*multipartBody).writeTo`. -/
def multipartBody.writeTo {σ H B W PW : Type} (world : WriterWorld σ H B PW)
    (m : multipartBody H B W) (s : σ) : σ × List (Event H B PW) × Option GoError :=
  multipartBody.writeToLoop world m.parts s

/-- The goroutine started by the first `Read`: the state it leaves and the
operations it performed, in order. -/
def multipartBody.goroutine {σ H B W PW : Type} (world : WriterWorld σ H B PW)
    (m : multipartBody H B W) (s : σ) : σ × List (Event H B PW) :=
  match m.writeTo world s with
  | (s1, evs, some err) =>
    (world.PipeCloseWithError s1 err, evs ++ [Event.PipeCloseWithError err])
  | (s1, evs, none) =>
    match world.Close s1 with
    | (s2, some err) =>
      (world.PipeCloseWithError s2 err,
        evs ++ [Event.Close (some err), Event.PipeCloseWithError err])
    | (s2, none) => (world.PipeClose s2, evs ++ [Event.Close none, Event.PipeClose])

/-! ## Vocabulary of the statements -/

/-- The three operations of a part serialized without error on part writer `pw`. -/
def partOps {H B PW : Type} (p : Entity H B) (pw : PW) : List (Event H B PW) :=
  [Event.CreatePart p.Header (Except.ok pw), Event.WriteTo p pw none, Event.PartClose pw none]

/-- The operations of parts serialized without error, each on its part writer. -/
def partsOps {H B PW : Type} : List (Entity H B × PW) → List (Event H B PW)
  | [] => []
  | (p, pw) :: rest => partOps p pw ++ partsOps rest

/-- The operations of a part whose serialization fails with `e`: the successful
ones `done`, then the failing one `bad`. -/
def PartFails {H B PW : Type} (p : Entity H B) (e : GoError)
    (done : List (Event H B PW)) (bad : Event H B PW) : Prop :=
  (done = [] ∧ bad = Event.CreatePart p.Header (Except.error e)) ∨
  (∃ pw, done = [Event.CreatePart p.Header (Except.ok pw)] ∧
      bad = Event.WriteTo p pw (some e)) ∨
  (∃ pw, done = [Event.CreatePart p.Header (Except.ok pw), Event.WriteTo p pw none] ∧
      bad = Event.PartClose pw (some e))

/-- The cursor is within `0 .. len(m.parts)`, and at the length once a pipe
exists. -/
def CursorInv {H B W : Type} (m : multipartBody H B W) : Prop :=
  0 ≤ m.i ∧ m.i ≤ (m.parts.length : Int) ∧ (m.r.isSome = true → m.i = (m.parts.length : Int))

/-! ## Concrete inputs -/

/-- Two text parts, "hello" and "world". -/
def sampleParts : List (Entity String String) :=
  [{ Header := "Content-Type: text/plain", Body := "hello" },
   { Header := "Content-Type: text/plain", Body := "world" }]

/-- A freshly constructed body holding the two text parts. -/
def sampleBody : multipartBody String String String :=
  multipartBody.fresh "multipart/mixed; boundary=b" sampleParts

/-- A parser over a list of parts still to come: it hands out the first one, and
returns `io.EOF` when none is left. -/
def sampleNext : List (Part String String) →
    List (Part String String) × Except GoError (Part String String)
  | [] => ([], Except.error GoError.EOF)
  | p :: ps => (ps, Except.ok p)

/-- An entity built from a header and a part: the header and the part's reader. -/
def sampleNewEntity : String → Part String String → Entity String String :=
  fun h p => { Header := h, Body := p.reader }

/-- A writer built from a header: it remembers the header. -/
def sampleNewWriter : String → String := fun h => h

/-- A world in which nothing fails; the state counts the part writers made, and
a part writer is its number. -/
def okWorld : WriterWorld Nat String String Nat where
  CreatePart := fun s _ => (s + 1, Except.ok s)
  WriteTo := fun s _ _ => (s, none)
  PartClose := fun s _ => (s, none)
  Close := fun s => (s, none)
  PipeClose := fun s => s
  PipeCloseWithError := fun s _ => s

/-- A world in which draining the body "world" fails with error 7. -/
def failWorld : WriterWorld Nat String String Nat where
  CreatePart := fun s _ => (s + 1, Except.ok s)
  WriteTo := fun s p _ => (s, if p.Body = "world" then some (GoError.Other 7) else none)
  PartClose := fun s _ => (s, none)
  Close := fun s => (s, none)
  PipeClose := fun s => s
  PipeCloseWithError := fun s _ => s

/-- A world in which draining the body "world" fails with the error `io.EOF`. -/
def eofWorld : WriterWorld Nat String String Nat where
  CreatePart := fun s _ => (s + 1, Except.ok s)
  WriteTo := fun s p _ => (s, if p.Body = "world" then some GoError.EOF else none)
  PartClose := fun s _ => (s, none)
  Close := fun s => (s, none)
  PipeClose := fun s => s
  PipeCloseWithError := fun s _ => s

/-! ## Iteration: `NextPart` -/

section Iteration

variable {H B W : Type}

/-- The element after a prefix is at index the prefix's length. -/
theorem getElem?_append_cons {α : Type} (done : List α) (p : α) (ps : List α) :
    (done ++ p :: ps)[done.length]? = some p := by
  rw [List.getElem?_append_right (le_refl _)]
  simp

/-- With the cursor at the length of the parts, the guard `m.i > len(m.parts)`
does not hold and the indexing panics; the state is as before. -/
theorem NextPart_cursor_at_length (m : multipartBody H B W)
    (h : m.i = (m.parts.length : Int)) :
    m.NextPart = (m, Outcome.indexOutOfRange (m.parts.length : Int) m.parts.length) := by
  unfold multipartBody.NextPart
  rw [h]
  have h3 : m.parts[((m.parts.length : Int)).toNat]? = none := by simp
  rw [if_neg (by omega), if_neg (by omega), h3]

/-- With the cursor on a part, `NextPart` returns that part and moves the cursor
by one. -/
theorem NextPart_cursor_on_part (m : multipartBody H B W) (k : Nat) (p : Entity H B)
    (h : m.i = (k : Int)) (hp : m.parts[k]? = some p) :
    m.NextPart = ({ m with i := (k : Int) + 1 }, Outcome.returned (some p, none)) := by
  unfold multipartBody.NextPart
  have hk : k < m.parts.length := by
    rcases Nat.lt_or_ge k m.parts.length with hlt | hge
    · exact hlt
    · rw [List.getElem?_eq_none hge] at hp; cases hp
  rw [h]
  have h3 : m.parts[((k : Int)).toNat]? = some p := by simpa using hp
  rw [if_neg (by omega), if_neg (by omega), h3]

/-- Iterating a body whose cursor is at `done.length`: the remaining parts come
out in order, and the call after the last one panics. -/
theorem nextParts_from (header : H) (r : Option PipeReader) (w : Option W)
    (rest done : List (Entity H B)) :
    multipartBody.nextParts (rest.length + 1)
        ({ header := header, parts := done ++ rest, r := r, w := w,
           i := (done.length : Int) } : multipartBody H B W)
      = rest.map (fun p => Outcome.returned (some p, none))
        ++ [Outcome.indexOutOfRange ((done ++ rest).length : Int) (done ++ rest).length] := by
  induction rest generalizing done with
  | nil =>
    have h := NextPart_cursor_at_length
      ({ header := header, parts := done ++ [], r := r, w := w,
         i := (done.length : Int) } : multipartBody H B W) (by simp)
    simp only [multipartBody.nextParts, List.length_nil, Nat.zero_add, h, List.map_nil,
      List.nil_append]
  | cons p ps ih =>
    have h := NextPart_cursor_on_part
      ({ header := header, parts := done ++ p :: ps, r := r, w := w,
         i := (done.length : Int) } : multipartBody H B W) done.length p rfl
      (getElem?_append_cons done p ps)
    have ih2 := ih (done ++ [p])
    simp only [List.append_assoc, List.singleton_append, List.length_append,
      List.length_singleton, Nat.cast_add, Nat.cast_one] at ih2
    rw [List.length_cons, multipartBody.nextParts, h, List.map_cons, List.cons_append]
    simp only []
    rw [ih2]
    simp

/-- The state after `NextPart`: unchanged, or the cursor was on a part and has
moved by one. -/
theorem NextPart_state (m : multipartBody H B W) :
    m.NextPart.1 = m ∨
      (0 ≤ m.i ∧ m.i < (m.parts.length : Int) ∧ m.NextPart.1 = { m with i := m.i + 1 }) := by
  unfold multipartBody.NextPart
  by_cases h1 : m.i > (m.parts.length : Int)
  · left; rw [if_pos h1]
  · rw [if_neg h1]
    by_cases h2 : m.i < 0
    · left; rw [if_pos h2]
    · rw [if_neg h2]
      cases h3 : m.parts[m.i.toNat]? with
      | none => left; rfl
      | some part =>
        right
        have hlt : m.i.toNat < m.parts.length := by
          rcases Nat.lt_or_ge m.i.toNat m.parts.length with hlt | hge
          · exact hlt
          · rw [List.getElem?_eq_none hge] at h3; cases h3
        refine ⟨by omega, by omega, rfl⟩

/-- No call changes the parts. -/
theorem step_parts (newWriter : H → W) (m : multipartBody H B W) (c : Call) :
    (m.step newWriter c).parts = m.parts := by
  cases c with
  | NextPart =>
    rcases NextPart_state m with h | ⟨_, _, h⟩ <;> simp only [multipartBody.step, h]
  | Read =>
    simp only [multipartBody.step, multipartBody.Read]
    cases m.r <;> rfl
  | Close =>
    simp only [multipartBody.step, multipartBody.Close]
    cases m.r <;> rfl

/-- Every call keeps the cursor invariant. -/
theorem step_CursorInv (newWriter : H → W) (m : multipartBody H B W) (c : Call)
    (h : CursorInv m) : CursorInv (m.step newWriter c) := by
  obtain ⟨h0, h1, h2⟩ := h
  cases c with
  | NextPart =>
    rcases NextPart_state m with e | ⟨_, hlt, e⟩
    · simp only [multipartBody.step, e]; exact ⟨h0, h1, h2⟩
    · simp only [multipartBody.step, e]
      refine ⟨by show 0 ≤ m.i + 1; omega,
        by show m.i + 1 ≤ (m.parts.length : Int); omega, ?_⟩
      intro hr
      have := h2 hr
      omega
  | Read =>
    simp only [multipartBody.step, multipartBody.Read]
    cases hr : m.r with
    | none => exact ⟨by simp, by simp, fun _ => rfl⟩
    | some r => exact ⟨h0, h1, h2⟩
  | Close =>
    simp only [multipartBody.step, multipartBody.Close]
    cases hr : m.r with
    | none => exact ⟨h0, h1, h2⟩
    | some r => exact ⟨h0, h1, fun _ => h2 (by rw [hr]; rfl)⟩

/-- Once a pipe exists, it exists after every call. -/
theorem step_pipe (newWriter : H → W) (m : multipartBody H B W) (c : Call)
    (h : m.r.isSome = true) : (m.step newWriter c).r.isSome = true := by
  cases c with
  | NextPart =>
    rcases NextPart_state m with e | ⟨_, _, e⟩ <;> simp only [multipartBody.step, e] <;> exact h
  | Read =>
    simp only [multipartBody.step, multipartBody.Read]
    cases hr : m.r with
    | none => rfl
    | some r => simp [hr]
  | Close =>
    simp only [multipartBody.step, multipartBody.Close]
    cases hr : m.r with
    | none => rw [hr] at h; cases h
    | some r => rfl

/-- A sequence of calls keeps the parts, the cursor invariant, and the pipe. -/
theorem run_keeps (newWriter : H → W) (calls : List Call) (m : multipartBody H B W)
    (h : CursorInv m) :
    (m.run newWriter calls).parts = m.parts ∧ CursorInv (m.run newWriter calls) ∧
      (m.r.isSome = true → (m.run newWriter calls).r.isSome = true) := by
  induction calls generalizing m with
  | nil => exact ⟨rfl, h, fun hr => hr⟩
  | cons c cs ih =>
    obtain ⟨ih1, ih2, ih3⟩ := ih (m.step newWriter c) (step_CursorInv newWriter m c h)
    refine ⟨?_, ih2, fun hr => ih3 (step_pipe newWriter m c hr)⟩
    show ((m.step newWriter c).run newWriter cs).parts = m.parts
    rw [ih1, step_parts]

/-- A freshly constructed body satisfies the cursor invariant. -/
theorem fresh_CursorInv (header : H) (parts : List (Entity H B)) :
    CursorInv (multipartBody.fresh header parts : multipartBody H B W) :=
  ⟨le_refl _, by simp [multipartBody.fresh], fun hr => by simp [multipartBody.fresh] at hr⟩

/-- A call of `Read` leaves a pipe in place. -/
theorem Read_pipe (newWriter : H → W) (m : multipartBody H B W) :
    (m.Read newWriter).1.r.isSome = true := by
  simp only [multipartBody.Read]
  cases hr : m.r with
  | none => rfl
  | some r => simp [hr]

/-- After any calls that include a `Read`, the parts are those of construction
and the cursor is at their length. -/
theorem run_through_Read (newWriter : H → W) (header : H) (parts : List (Entity H B))
    (before after : List Call) :
    ((multipartBody.fresh header parts : multipartBody H B W).run newWriter
        (before ++ Call.Read :: after)).parts = parts ∧
    ((multipartBody.fresh header parts : multipartBody H B W).run newWriter
        (before ++ Call.Read :: after)).i = (parts.length : Int) := by
  obtain ⟨hp1, hi1, _⟩ := run_keeps newWriter before
    (multipartBody.fresh header parts : multipartBody H B W) (fresh_CursorInv header parts)
  have hi2 := step_CursorInv newWriter _ Call.Read hi1
  obtain ⟨hp3, hi3, hr3⟩ := run_keeps newWriter after _ hi2
  have hrun : (multipartBody.fresh header parts : multipartBody H B W).run newWriter
      (before ++ Call.Read :: after)
      = (((multipartBody.fresh header parts : multipartBody H B W).run newWriter before).step
          newWriter Call.Read).run newWriter after := by
    simp only [multipartBody.run, List.foldl_append, List.foldl_cons]
  have hparts : ((multipartBody.fresh header parts : multipartBody H B W).run newWriter
      (before ++ Call.Read :: after)).parts = parts := by
    rw [hrun, hp3, step_parts, hp1]; rfl
  refine ⟨hparts, ?_⟩
  have hpipe := hr3 (Read_pipe newWriter _)
  have hlen := hi3.2.2 hpipe
  rw [hrun, hlen, ← hrun, hparts]

end Iteration

/-! ## The iterator contract of `multipartBody` -/

section IteratorContract

variable {H B W : Type}

/-- C1: on a freshly constructed body on which `Read` is never called, the first
`n` calls of `NextPart` return the `n` parts in stored order with a nil error; the
call after them does not return `io.EOF`: its indexing `m.parts[m.i]` panics with
index `n` out of range for length `n`. -/
theorem NextPart_iterates_then_panics (header : H) (parts : List (Entity H B)) :
    multipartBody.nextParts (parts.length + 1)
        (multipartBody.fresh header parts : multipartBody H B W)
      = parts.map (fun p => Outcome.returned (some p, none))
        ++ [Outcome.indexOutOfRange (parts.length : Int) parts.length] := by
  have h := nextParts_from header (none : Option PipeReader) (none : Option W) parts []
  simpa [multipartBody.fresh] using h

/-- C2: once `Read` has been called, whatever calls came before and after it, a
call of `NextPart` does not return `(nil, io.EOF)`: the cursor equals the number
of parts and the indexing `m.parts[m.i]` panics. -/
theorem NextPart_after_Read_panics (newWriter : H → W) (header : H)
    (parts : List (Entity H B)) (before after : List Call) :
    ((multipartBody.fresh header parts : multipartBody H B W).run newWriter
        (before ++ Call.Read :: after)).NextPart.2
      = Outcome.indexOutOfRange (parts.length : Int) parts.length := by
  obtain ⟨hp, hi⟩ := run_through_Read newWriter header parts before after
  have h := NextPart_cursor_at_length _ (hi.trans (by rw [hp]))
  rw [h, hp]

/-- C3: on a body constructed with no parts, the first call of `NextPart` does
not return `io.EOF`: it panics with index 0 out of range for length 0, and the
body is left as it was. -/
theorem NextPart_no_parts_panics (header : H) :
    (multipartBody.fresh header ([] : List (Entity H B)) : multipartBody H B W).NextPart
      = (multipartBody.fresh header [], Outcome.indexOutOfRange 0 0) := by
  rfl

/-- C10: in every state reached from a freshly constructed body by `NextPart`,
`Read` and `Close` calls the cursor is within `0 .. len(m.parts)`; yet the index
access of `NextPart` is not always within bounds: after a further `Read` the
cursor is `len(m.parts)` and `NextPart` panics with index out of range. -/
theorem cursor_bounded_index_not (newWriter : H → W) (header : H)
    (parts : List (Entity H B)) (calls : List Call) :
    (0 ≤ ((multipartBody.fresh header parts : multipartBody H B W).run newWriter calls).i ∧
      ((multipartBody.fresh header parts : multipartBody H B W).run newWriter calls).i
        ≤ (parts.length : Int)) ∧
    ((multipartBody.fresh header parts : multipartBody H B W).run newWriter
        (calls ++ [Call.Read])).i = (parts.length : Int) ∧
    ((multipartBody.fresh header parts : multipartBody H B W).run newWriter
        (calls ++ [Call.Read])).NextPart.2
      = Outcome.indexOutOfRange (parts.length : Int) parts.length := by
  obtain ⟨hp1, ⟨h0, h1, _⟩, _⟩ := run_keeps newWriter calls
    (multipartBody.fresh header parts : multipartBody H B W) (fresh_CursorInv header parts)
  obtain ⟨hp, hi⟩ := run_through_Read newWriter header parts calls []
  refine ⟨⟨h0, ?_⟩, hi, ?_⟩
  · rw [hp1] at h1; exact h1
  · have h := NextPart_cursor_at_length _ (hi.trans (by rw [hp]))
    rw [h, hp]

end IteratorContract

/-! ## `Close`, the frame of the operations, and `multipartReader` -/

section Frame

variable {H B W : Type}

/-- C6: `Close` returns a nil error in every state; when no pipe has been
created it changes no field of the body; and a second `Close` leaves the body as
the first one left it. -/
theorem Close_nil_noop_idempotent (m : multipartBody H B W) :
    m.Close.2 = none ∧ (m.r = none → m.Close.1 = m) ∧ m.Close.1.Close.1 = m.Close.1 := by
  unfold multipartBody.Close
  cases hr : m.r with
  | none => simp [hr]
  | some r =>
    refine ⟨rfl, fun h => Option.noConfusion h, ?_⟩
    cases hre : r.rerr <;> simp [PipeReader.Close, hre]

/-- C8: `NextPart`, the foreground of `Read`, and `Close` leave the parts and the
header template unchanged; `NextPart` leaves the pipe and the writer unchanged as
well (only the cursor can move); `Close` leaves the writer and the cursor
unchanged; and a `Read` on a body that already has a pipe changes nothing. -/
theorem operations_frame (newWriter : H → W) (m : multipartBody H B W) :
    (m.NextPart.1.parts = m.parts ∧ m.NextPart.1.header = m.header ∧
      m.NextPart.1.r = m.r ∧ m.NextPart.1.w = m.w) ∧
    ((m.Read newWriter).1.parts = m.parts ∧ (m.Read newWriter).1.header = m.header ∧
      (m.r ≠ none → (m.Read newWriter).1 = m)) ∧
    (m.Close.1.parts = m.parts ∧ m.Close.1.header = m.header ∧
      m.Close.1.w = m.w ∧ m.Close.1.i = m.i) := by
  refine ⟨?_, ?_, ?_⟩
  · rcases NextPart_state m with h | ⟨_, _, h⟩ <;> rw [h] <;> exact ⟨rfl, rfl, rfl, rfl⟩
  · unfold multipartBody.Read
    cases hr : m.r with
    | none => exact ⟨rfl, rfl, fun h => absurd rfl h⟩
    | some r => exact ⟨rfl, rfl, fun _ => rfl⟩
  · unfold multipartBody.Close
    cases hr : m.r <;> exact ⟨rfl, rfl, rfl, rfl⟩

/-- C7: when the parser's next-part primitive returns an error, `NextPart` of
`multipartReader` returns a nil entity and that same error; when it returns a
part `p`, `NextPart` returns `NewEntity(p.Header, p)` and a nil error. -/
theorem multipartReader_NextPart_result {ρ R E : Type}
    (next : ρ → ρ × Except GoError (Part H R)) (NewEntity : H → Part H R → E) (r : ρ) :
    (∀ e, (next r).2 = Except.error e →
      (multipartReader.NextPart next NewEntity r).2 = (none, some e)) ∧
    (∀ p, (next r).2 = Except.ok p →
      (multipartReader.NextPart next NewEntity r).2 = (some (NewEntity p.Header p), none)) ∧
    (multipartReader.NextPart next NewEntity r).1 = (next r).1 := by
  unfold multipartReader.NextPart
  rcases hn : next r with ⟨r1, res⟩
  cases res with
  | error e0 =>
    refine ⟨fun e he => ?_, fun p hp => ?_, rfl⟩
    · cases he; rfl
    · cases hp
  | ok p0 =>
    refine ⟨fun e he => ?_, fun p hp => ?_, rfl⟩
    · cases he
    · cases hp; rfl

/-- A body that was never read has no pipe, and `Close` leaves it as it is. -/
theorem Close_witness : sampleBody.r = none ∧ sampleBody.Close.1 = sampleBody :=
  ⟨rfl, (Close_nil_noop_idempotent sampleBody).2.1 rfl⟩

/-- On an exhausted parser `NextPart` returns `(nil, io.EOF)`, and on a parser
holding a part it returns the entity built from that part. -/
theorem multipartReader_NextPart_witness :
    (multipartReader.NextPart sampleNext sampleNewEntity []).2 = (none, some GoError.EOF) ∧
    (multipartReader.NextPart sampleNext sampleNewEntity
        [{ Header := "Content-Type: text/plain", reader := "hello" }]).2
      = (some { Header := "Content-Type: text/plain", Body := "hello" }, none) :=
  ⟨(multipartReader_NextPart_result sampleNext sampleNewEntity []).1 GoError.EOF rfl,
   (multipartReader_NextPart_result sampleNext sampleNewEntity
      [{ Header := "Content-Type: text/plain", reader := "hello" }]).2.1
      { Header := "Content-Type: text/plain", reader := "hello" } rfl⟩

end Frame

/-! ## Serialization -/

section Serialization

variable {σ H B W PW : Type}

/-- In a list, the first element failing a property is determined: two splittings
at such an element agree. -/
theorem first_failure_unique {α : Type} (P : α → Prop) :
    ∀ (pre pre2 : List α) (x x2 : α) (post post2 : List α),
      pre ++ x :: post = pre2 ++ x2 :: post2 →
      (∀ y ∈ pre, P y) → ¬ P x → (∀ y ∈ pre2, P y) → ¬ P x2 →
      pre = pre2 ∧ x = x2 ∧ post = post2
  | [], [], x, x2, post, post2, h, _, _, _, _ => by
    simp only [List.nil_append, List.cons.injEq] at h
    exact ⟨rfl, h.1, h.2⟩
  | [], b :: pre2, x, x2, post, post2, h, _, hx, h2, _ => by
    simp only [List.nil_append, List.cons_append, List.cons.injEq] at h
    exact absurd (h.1 ▸ h2 b (List.mem_cons_self _ _)) hx
  | a :: pre, [], x, x2, post, post2, h, h1, _, _, hx2 => by
    simp only [List.nil_append, List.cons_append, List.cons.injEq] at h
    exact absurd (h.1 ▸ h1 a (List.mem_cons_self _ _)) hx2
  | a :: pre, b :: pre2, x, x2, post, post2, h, h1, hx, h2, hx2 => by
    simp only [List.cons_append, List.cons.injEq] at h
    obtain ⟨r1, r2, r3⟩ := first_failure_unique P pre pre2 x x2 post post2 h.2
      (fun y hy => h1 y (List.mem_cons_of_mem _ hy)) hx
      (fun y hy => h2 y (List.mem_cons_of_mem _ hy)) hx2
    exact ⟨by rw [h.1, r1], r2, r3⟩

/-- The operations of parts serialized without error are part operations that
returned no error. -/
theorem partsOps_ok (l : List (Entity H B × PW)) :
    ∀ x ∈ partsOps l, x.err = none ∧ x.isPartOp = true := by
  induction l with
  | nil => intro x hx; cases hx
  | cons a l ih =>
    obtain ⟨p, pw⟩ := a
    intro x hx
    simp only [partsOps, partOps, List.cons_append, List.nil_append, List.mem_cons] at hx
    rcases hx with rfl | rfl | rfl | hx
    · exact ⟨rfl, rfl⟩
    · exact ⟨rfl, rfl⟩
    · exact ⟨rfl, rfl⟩
    · exact ih x hx

/-- In a failing part, the operations done returned no error, the failing one
returned the error, and all are part operations. -/
theorem PartFails_ok (p : Entity H B) (e : GoError) (done : List (Event H B PW))
    (bad : Event H B PW) (h : PartFails p e done bad) :
    (∀ x ∈ done, x.err = none ∧ x.isPartOp = true) ∧ bad.err = some e ∧
      bad.isPartOp = true := by
  rcases h with ⟨rfl, rfl⟩ | ⟨pw, rfl, rfl⟩ | ⟨pw, rfl, rfl⟩
  · exact ⟨fun x hx => (by cases hx), rfl, rfl⟩
  · refine ⟨fun x hx => ?_, rfl, rfl⟩
    simp only [List.mem_singleton] at hx
    subst hx; exact ⟨rfl, rfl⟩
  · refine ⟨fun x hx => ?_, rfl, rfl⟩
    simp only [List.mem_cons, List.mem_singleton, List.not_mem_nil, or_false] at hx
    rcases hx with rfl | rfl <;> exact ⟨rfl, rfl⟩

/-- What the loop of `writeTo` does: either every part is serialized in order
and nil is returned, or the parts before some part `k` are serialized, part `k`
fails with `e`, nothing follows, and `e` is returned. -/
theorem writeToLoop_spec (world : WriterWorld σ H B PW) :
    ∀ (parts : List (Entity H B)) (s s1 : σ) (evs : List (Event H B PW))
      (res : Option GoError),
      multipartBody.writeToLoop world parts s = (s1, evs, res) →
      (res = none ∧ ∃ pws : List PW, pws.length = parts.length ∧
          evs = partsOps (parts.zip pws)) ∨
      (∃ (e : GoError) (k : Nat) (p : Entity H B) (pws : List PW)
          (done : List (Event H B PW)) (bad : Event H B PW),
          res = some e ∧ parts[k]? = some p ∧ pws.length = k ∧ PartFails p e done bad ∧
          evs = partsOps ((parts.take k).zip pws) ++ (done ++ [bad])) := by
  intro parts
  induction parts with
  | nil =>
    intro s s1 evs res h
    simp only [multipartBody.writeToLoop, Prod.mk.injEq] at h
    obtain ⟨_, h2, h3⟩ := h
    exact Or.inl ⟨h3.symm, [], rfl, by rw [← h2]; rfl⟩
  | cons p ps ih =>
    intro s s1 evs res h
    rw [multipartBody.writeToLoop] at h
    rcases hc : world.CreatePart s p.Header with ⟨t1, r1⟩
    rw [hc] at h
    cases r1 with
    | error err =>
      simp only [Prod.mk.injEq] at h
      obtain ⟨_, h2, h3⟩ := h
      exact Or.inr ⟨err, 0, p, [], [], _, h3.symm, by simp, rfl, Or.inl ⟨rfl, rfl⟩,
        by rw [← h2]; rfl⟩
    | ok pw =>
      simp only at h
      rcases hw : world.WriteTo t1 p pw with ⟨t2, r2⟩
      rw [hw] at h
      cases r2 with
      | some err =>
        simp only [Prod.mk.injEq] at h
        obtain ⟨_, h2, h3⟩ := h
        exact Or.inr ⟨err, 0, p, [], _, _, h3.symm, by simp, rfl,
          Or.inr (Or.inl ⟨pw, rfl, rfl⟩), by rw [← h2]; rfl⟩
      | none =>
        simp only at h
        rcases hcl : world.PartClose t2 pw with ⟨t3, r3⟩
        rw [hcl] at h
        cases r3 with
        | some err =>
          simp only [Prod.mk.injEq] at h
          obtain ⟨_, h2, h3⟩ := h
          exact Or.inr ⟨err, 0, p, [], _, _, h3.symm, by simp, rfl,
            Or.inr (Or.inr ⟨pw, rfl, rfl⟩), by rw [← h2]; rfl⟩
        | none =>
          simp only at h
          rcases hrec : multipartBody.writeToLoop world ps t3 with ⟨t4, evs4, res4⟩
          rw [hrec] at h
          simp only [Prod.mk.injEq] at h
          obtain ⟨_, h2, h3⟩ := h
          rcases ih t3 t4 evs4 res4 hrec with ⟨hres, pws, hlen, hevs⟩ |
            ⟨e, k, q, pws, done, bad, hres, hq, hlen, hfail, hevs⟩
          · refine Or.inl ⟨by rw [← h3, hres], pw :: pws, by simp [hlen], ?_⟩
            rw [← h2, hevs]; rfl
          · refine Or.inr ⟨e, k + 1, q, pw :: pws, done, bad, by rw [← h3, hres], ?_,
              by simp [hlen], hfail, ?_⟩
            · simpa using hq
            · rw [← h2, hevs]; rfl

/-- Part operations are neither the finalize nor operations on the pipe. -/
theorem isPartOp_others (x : Event H B PW) (h : x.isPartOp = true) :
    x.isFinalize = false ∧ x.isPipeOp = false ∧ x.isPipeClose = false := by
  cases x <;> first | exact ⟨rfl, rfl, rfl⟩ | cases h

/-- Operations before the first operation on the pipe do not decide what its
reader gets. -/
theorem pipeReadError_append (l r : List (Event H B PW))
    (h : ∀ x ∈ l, x.isPipeOp = false) : pipeReadError (l ++ r) = pipeReadError r := by
  induction l with
  | nil => rfl
  | cons a l ih =>
    have ha := h a (List.mem_cons_self _ _)
    have ih2 := ih (fun x hx => h x (List.mem_cons_of_mem _ hx))
    cases a <;> first | exact ih2 | cases ha

/-- What the goroutine does: `writeTo`, then either the finalize and a close of
the pipe (clean, or with the finalize's error), or, `writeTo` having failed, a
close of the pipe with its error. -/
theorem goroutine_spec (world : WriterWorld σ H B PW) (m : multipartBody H B W) (s : σ) :
    ((m.writeTo world s).2.2 = none ∧
      (∃ pws : List PW, pws.length = m.parts.length ∧
        (m.writeTo world s).2.1 = partsOps (m.parts.zip pws)) ∧
      ((m.goroutine world s).2
          = (m.writeTo world s).2.1 ++ [Event.Close none, Event.PipeClose] ∨
        ∃ e, (m.goroutine world s).2
          = (m.writeTo world s).2.1 ++ [Event.Close (some e), Event.PipeCloseWithError e])) ∨
    (∃ (e : GoError) (k : Nat) (p : Entity H B) (pws : List PW)
        (done : List (Event H B PW)) (bad : Event H B PW),
        (m.writeTo world s).2.2 = some e ∧ m.parts[k]? = some p ∧ pws.length = k ∧
        PartFails p e done bad ∧
        (m.writeTo world s).2.1 = partsOps ((m.parts.take k).zip pws) ++ (done ++ [bad]) ∧
        (m.goroutine world s).2 = (m.writeTo world s).2.1 ++ [Event.PipeCloseWithError e]) := by
  rcases hL : m.writeTo world s with ⟨s1, evs, res⟩
  have spec := writeToLoop_spec world m.parts s s1 evs res hL
  rcases spec with ⟨hres, pws, hlen, hevs⟩ | ⟨e, k, p, pws, done, bad, hres, hp, hlen, hf, hevs⟩
  · subst hres
    refine Or.inl ⟨rfl, ⟨pws, hlen, hevs⟩, ?_⟩
    rcases hc : world.Close s1 with ⟨s2, r2⟩
    cases r2 with
    | none => left; simp only [multipartBody.goroutine, hL, hc]
    | some e => right; exact ⟨e, by simp only [multipartBody.goroutine, hL, hc]⟩
  · subst hres
    refine Or.inr ⟨e, k, p, pws, done, bad, rfl, hp, hlen, hf, hevs, ?_⟩
    simp only [multipartBody.goroutine, hL]

/-- C4: the goroutine started by the first `Read`, when none of the operations
it performs returns an error, performs for each part in stored order
`CreatePart` with its header, the part's `WriteTo` on the part writer created,
and `Close` of that part writer; then one finalize `m.w.Close()`, then the clean
close of the pipe write end; and nothing else. For no parts these are the
finalize and the clean close alone. -/
theorem serialization_operations (newWriter : H → W) (world : WriterWorld σ H B PW)
    (m : multipartBody H B W) (s : σ) (hfresh : m.r = none)
    (hok : ∀ x ∈ ((m.Read newWriter).1.goroutine world s).2, x.err = none) :
    (m.Read newWriter).2 = true ∧
    (∃ pws : List PW, pws.length = m.parts.length ∧
      ((m.Read newWriter).1.goroutine world s).2
        = partsOps (m.parts.zip pws) ++ [Event.Close none, Event.PipeClose]) ∧
    (m.parts = [] →
      ((m.Read newWriter).1.goroutine world s).2 = [Event.Close none, Event.PipeClose]) := by
  have hparts : (m.Read newWriter).1.parts = m.parts := step_parts newWriter m Call.Read
  have hstart : (m.Read newWriter).2 = true := by
    unfold multipartBody.Read
    rw [hfresh]
  have key : ∃ pws : List PW, pws.length = m.parts.length ∧
      ((m.Read newWriter).1.goroutine world s).2
        = partsOps (m.parts.zip pws) ++ [Event.Close none, Event.PipeClose] := by
    rcases goroutine_spec world (m.Read newWriter).1 s
      with ⟨_, ⟨pws, hlen, hevs⟩, ht | ⟨e, ht⟩⟩ | ⟨e, k, p, pws, done, bad, _, _, _, hf, _, ht⟩
    · rw [hparts] at hlen hevs
      exact ⟨pws, hlen, by rw [ht, hevs]⟩
    · have hbad := hok (Event.Close (some e)) (by rw [ht]; simp)
      cases hbad
    · have hbad := hok bad (by rw [ht]; simp [*])
      rw [(PartFails_ok p e done bad hf).2.1] at hbad
      cases hbad
  refine ⟨hstart, key, fun hnil => ?_⟩
  obtain ⟨pws, hlen, ht⟩ := key
  rw [ht, hnil]
  rfl

/-- The goroutine at its first failing operation, for any error `e`: the only
operation after it is the close of the pipe write end with `e`, and the error
stored in the pipe is `e`. The failing operation is the finalize, reached after
all parts, or an operation of some part `k`, and then `writeTo` returns `e` and
has performed nothing after it. -/
theorem goroutine_first_failure (world : WriterWorld σ H B PW) (m : multipartBody H B W)
    (s : σ) (pre post : List (Event H B PW)) (ev : Event H B PW) (e : GoError)
    (htrace : (m.goroutine world s).2 = pre ++ ev :: post)
    (hpre : ∀ x ∈ pre, x.err = none) (hev : ev.err = some e) :
    post = [Event.PipeCloseWithError e] ∧
    (∀ x ∈ (m.goroutine world s).2, x.isPipeClose = false) ∧
    pipeReadError (m.goroutine world s).2 = some e ∧
    ((ev = Event.Close (some e) ∧ (m.writeTo world s).2.2 = none ∧
        (m.writeTo world s).2.1 = pre ∧
        ∃ pws : List PW, pws.length = m.parts.length ∧ pre = partsOps (m.parts.zip pws)) ∨
      ((m.writeTo world s).2.2 = some e ∧ (m.writeTo world s).2.1 = pre ++ [ev] ∧
        (∀ x ∈ (m.goroutine world s).2, x.isFinalize = false) ∧
        ∃ (k : Nat) (p : Entity H B) (pws : List PW) (done : List (Event H B PW)),
          m.parts[k]? = some p ∧ pws.length = k ∧ PartFails p e done ev ∧
          pre = partsOps ((m.parts.take k).zip pws) ++ done)) := by
  have hne : ∀ (x : Event H B PW) (e1 : GoError), x.err = some e1 → ¬ (x.err = none) := by
    intro x e1 hx hn; rw [hx] at hn; cases hn
  rcases goroutine_spec world m s with
    ⟨hres, ⟨pws, hlen, hevs⟩, ht | ⟨e2, ht⟩⟩ | ⟨e2, k, p, pws, done, bad, hres, hp, hlen, hf, hevs, ht⟩
  · exfalso
    have hall : ∀ x ∈ (m.goroutine world s).2, x.err = none := by
      intro x hx
      rw [ht, hevs, List.mem_append] at hx
      rcases hx with hx | hx
      · exact (partsOps_ok _ x hx).1
      · simp only [List.mem_cons, List.mem_singleton, List.not_mem_nil, or_false] at hx
        rcases hx with rfl | rfl <;> rfl
    have := hall ev (by rw [htrace]; simp)
    exact hne ev e hev this
  · have hsplit : pre ++ ev :: post
        = (m.writeTo world s).2.1 ++ Event.Close (some e2) :: [Event.PipeCloseWithError e2] := by
      rw [← htrace, ht]
    obtain ⟨h1, h2, h3⟩ := first_failure_unique (fun x : Event H B PW => x.err = none)
      _ _ _ _ _ _ hsplit hpre (hne ev e hev)
      (fun x hx => by rw [hevs] at hx; exact (partsOps_ok _ x hx).1)
      (by intro h; cases h)
    have he : e2 = e := by
      rw [h2] at hev
      simpa [Event.err] using hev
    subst he
    have hpart : ∀ x ∈ (m.writeTo world s).2.1, x.isPartOp = true :=
      fun x hx => by rw [hevs] at hx; exact (partsOps_ok _ x hx).2
    refine ⟨h3, ?_, ?_, Or.inl ⟨h2, hres, h1.symm, pws, hlen, by rw [h1, hevs]⟩⟩
    · intro x hx
      rw [ht, List.mem_append] at hx
      rcases hx with hx | hx
      · exact (isPartOp_others x (hpart x hx)).2.2
      · simp only [List.mem_cons, List.mem_singleton, List.not_mem_nil, or_false] at hx
        rcases hx with rfl | rfl <;> rfl
    · rw [ht, pipeReadError_append _ _ (fun x hx => (isPartOp_others x (hpart x hx)).2.1)]
      rfl
  · obtain ⟨hdone, hbad, hbadp⟩ := PartFails_ok p e2 done bad hf
    have hsplit : pre ++ ev :: post
        = (partsOps ((m.parts.take k).zip pws) ++ done) ++ bad :: [Event.PipeCloseWithError e2] := by
      rw [← htrace, ht, hevs]
      simp
    have hokpre : ∀ x ∈ partsOps ((m.parts.take k).zip pws) ++ done,
        x.err = none ∧ x.isPartOp = true := by
      intro x hx
      rw [List.mem_append] at hx
      rcases hx with hx | hx
      · exact partsOps_ok _ x hx
      · exact hdone x hx
    obtain ⟨h1, h2, h3⟩ := first_failure_unique (fun x : Event H B PW => x.err = none)
      _ _ _ _ _ _ hsplit hpre (hne ev e hev) (fun x hx => (hokpre x hx).1) (hne bad e2 hbad)
    have he : e2 = e := by
      rw [h2, hbad] at hev
      exact Option.some.inj hev
    subst he
    have hpart : ∀ x ∈ (m.writeTo world s).2.1, x.isPartOp = true := by
      intro x hx
      rw [hevs, ← List.append_assoc, List.mem_append] at hx
      rcases hx with hx | hx
      · exact (hokpre x hx).2
      · simp only [List.mem_singleton] at hx
        rw [hx]; exact hbadp
    have hw : (m.writeTo world s).2.1 = pre ++ [ev] := by
      rw [hevs, h1, h2, List.append_assoc]
    refine ⟨h3, ?_, ?_, Or.inr ⟨hres, hw, ?_, k, p, pws, done, hp, hlen, h2 ▸ hf, h1⟩⟩
    · intro x hx
      rw [ht, List.mem_append] at hx
      rcases hx with hx | hx
      · exact (isPartOp_others x (hpart x hx)).2.2
      · simp only [List.mem_singleton] at hx
        rw [hx]; rfl
    · rw [ht, pipeReadError_append _ _ (fun x hx => (isPartOp_others x (hpart x hx)).2.1)]
      rfl
    · intro x hx
      rw [ht, List.mem_append] at hx
      rcases hx with hx | hx
      · exact (isPartOp_others x (hpart x hx)).1
      · simp only [List.mem_singleton] at hx
        rw [hx]; rfl

/-- The goroutine on the two text parts, nothing failing: the hypotheses of
`serialization_operations` hold there, and so does its conclusion. -/
theorem serialization_operations_witness :
    sampleBody.r = none ∧
    (∀ x ∈ ((sampleBody.Read sampleNewWriter).1.goroutine okWorld 0).2, x.err = none) ∧
    (sampleBody.Read sampleNewWriter).2 = true ∧
    ∃ pws : List Nat, pws.length = sampleBody.parts.length ∧
      ((sampleBody.Read sampleNewWriter).1.goroutine okWorld 0).2
        = partsOps (sampleBody.parts.zip pws) ++ [Event.Close none, Event.PipeClose] :=
  ⟨rfl, by decide,
    (serialization_operations sampleNewWriter okWorld sampleBody 0 rfl (by decide)).1,
    (serialization_operations sampleNewWriter okWorld sampleBody 0 rfl (by decide)).2.1⟩

/-- C5, amended: when an operation of the goroutine returns an error `e` other
than `io.EOF` and every operation before it returned none, the only operation
after it is the close of the pipe write end with `e`: the pipe is not closed
cleanly, its reader gets `e`, and that is not the `io.EOF` of a clean
end-of-stream. The failing operation is either the finalize, reached after all
parts were serialized, or an operation of some part `k`: then `writeTo` returns
`e`, it has performed the operations of the parts before `k` and those of part
`k` up to the failing one and no other, and the finalize is not run. -/
theorem serialization_failure (world : WriterWorld σ H B PW) (m : multipartBody H B W)
    (s : σ) (pre post : List (Event H B PW)) (ev : Event H B PW) (e : GoError)
    (htrace : (m.goroutine world s).2 = pre ++ ev :: post)
    (hpre : ∀ x ∈ pre, x.err = none) (hev : ev.err = some e) (hne : e ≠ GoError.EOF) :
    post = [Event.PipeCloseWithError e] ∧
    (∀ x ∈ (m.goroutine world s).2, x.isPipeClose = false) ∧
    pipeReadError (m.goroutine world s).2 = some e ∧
    pipeReadError (m.goroutine world s).2 ≠ some GoError.EOF ∧
    ((ev = Event.Close (some e) ∧ (m.writeTo world s).2.2 = none ∧
        (m.writeTo world s).2.1 = pre ∧
        ∃ pws : List PW, pws.length = m.parts.length ∧ pre = partsOps (m.parts.zip pws)) ∨
      ((m.writeTo world s).2.2 = some e ∧ (m.writeTo world s).2.1 = pre ++ [ev] ∧
        (∀ x ∈ (m.goroutine world s).2, x.isFinalize = false) ∧
        ∃ (k : Nat) (p : Entity H B) (pws : List PW) (done : List (Event H B PW)),
          m.parts[k]? = some p ∧ pws.length = k ∧ PartFails p e done ev ∧
          pre = partsOps ((m.parts.take k).zip pws) ++ done)) := by
  obtain ⟨h1, h2, h3, h4⟩ := goroutine_first_failure world m s pre post ev e htrace hpre hev
  refine ⟨h1, h2, h3, ?_, h4⟩
  rw [h3]
  intro h
  exact hne (Option.some.inj h)

/-- The goroutine on the two text parts when draining "world" fails with error
7: the hypotheses of `serialization_failure` hold at the failing `WriteTo`, and
the pipe is closed with error 7, which its reader gets instead of `io.EOF`. -/
theorem serialization_failure_witness :
    (sampleBody.goroutine failWorld 0).2
      = [Event.CreatePart "Content-Type: text/plain" (Except.ok 0),
         Event.WriteTo { Header := "Content-Type: text/plain", Body := "hello" } 0 none,
         Event.PartClose 0 none,
         Event.CreatePart "Content-Type: text/plain" (Except.ok 1)]
        ++ Event.WriteTo { Header := "Content-Type: text/plain", Body := "world" } 1
            (some (GoError.Other 7))
          :: [Event.PipeCloseWithError (GoError.Other 7)] ∧
    GoError.Other 7 ≠ GoError.EOF ∧
    pipeReadError (sampleBody.goroutine failWorld 0).2 = some (GoError.Other 7) ∧
    pipeReadError (sampleBody.goroutine failWorld 0).2 ≠ some GoError.EOF ∧
    (sampleBody.writeTo failWorld 0).2.2 = some (GoError.Other 7) :=
  ⟨rfl, by decide,
    (serialization_failure failWorld sampleBody 0 _ _ _ (GoError.Other 7)
      (show (sampleBody.goroutine failWorld 0).2
        = [Event.CreatePart "Content-Type: text/plain" (Except.ok 0),
           Event.WriteTo { Header := "Content-Type: text/plain", Body := "hello" } 0 none,
           Event.PartClose 0 none,
           Event.CreatePart "Content-Type: text/plain" (Except.ok 1)]
          ++ Event.WriteTo { Header := "Content-Type: text/plain", Body := "world" } 1
              (some (GoError.Other 7))
            :: [Event.PipeCloseWithError (GoError.Other 7)] from rfl)
      (by decide) rfl (by decide)).2.2.1,
    (serialization_failure failWorld sampleBody 0 _ _ _ (GoError.Other 7)
      (show (sampleBody.goroutine failWorld 0).2
        = [Event.CreatePart "Content-Type: text/plain" (Except.ok 0),
           Event.WriteTo { Header := "Content-Type: text/plain", Body := "hello" } 0 none,
           Event.PartClose 0 none,
           Event.CreatePart "Content-Type: text/plain" (Except.ok 1)]
          ++ Event.WriteTo { Header := "Content-Type: text/plain", Body := "world" } 1
              (some (GoError.Other 7))
            :: [Event.PipeCloseWithError (GoError.Other 7)] from rfl)
      (by decide) rfl (by decide)).2.2.2.1,
    by decide⟩

/-- C5 as stated fails when the error is `io.EOF`: on the two text parts, draining
"world" returns `io.EOF` after every earlier operation returned none; the
goroutine closes the pipe with that error, and the reader gets `io.EOF`, which is
what the reader of the run in which nothing fails gets from the clean close. -/
theorem serialization_failure_EOF_counterexample :
    (sampleBody.goroutine eofWorld 0).2
      = [Event.CreatePart "Content-Type: text/plain" (Except.ok 0),
         Event.WriteTo { Header := "Content-Type: text/plain", Body := "hello" } 0 none,
         Event.PartClose 0 none,
         Event.CreatePart "Content-Type: text/plain" (Except.ok 1)]
        ++ Event.WriteTo { Header := "Content-Type: text/plain", Body := "world" } 1
            (some GoError.EOF)
          :: [Event.PipeCloseWithError GoError.EOF] ∧
    (∀ x ∈ ([Event.CreatePart "Content-Type: text/plain" (Except.ok 0),
         Event.WriteTo { Header := "Content-Type: text/plain", Body := "hello" } 0 none,
         Event.PartClose 0 none,
         Event.CreatePart "Content-Type: text/plain" (Except.ok 1)] :
           List (Event String String Nat)), x.err = none) ∧
    (Event.WriteTo { Header := "Content-Type: text/plain", Body := "world" } 1
        (some GoError.EOF) : Event String String Nat).err = some GoError.EOF ∧
    (sampleBody.writeTo eofWorld 0).2.2 = some GoError.EOF ∧
    (∀ x ∈ ((sampleBody.Read sampleNewWriter).1.goroutine okWorld 0).2, x.err = none) ∧
    pipeReadError ((sampleBody.Read sampleNewWriter).1.goroutine okWorld 0).2
      = some GoError.EOF ∧
    ¬ (pipeReadError (sampleBody.goroutine eofWorld 0).2
        ≠ pipeReadError ((sampleBody.Read sampleNewWriter).1.goroutine okWorld 0).2) := by
  refine ⟨rfl, by decide, rfl, by decide, by decide, by decide, ?_⟩
  intro h
  exact h (by decide)

end Serialization

end messages
